import Mathlib

/-!
Shallow embedding of the scn-ts-web-demo configuration tree and analysis-job
pipeline, translated from src/components/OutputOptions.tsx,
src/hooks/useAnalysis.hook.ts and src/App.tsx.
-/

namespace ScnDemo

/-- A JS string `includes` test on character lists: does `sub` occur as a
contiguous run inside the second list? -/
def charsIncludes (sub : List Char) : List Char → Bool
  | [] => sub.isEmpty
  | c :: cs => sub.isPrefixOf (c :: cs) || charsIncludes sub cs

/-- JS `s.includes(sub)`: `sub` occurs as a contiguous substring of `s`. -/
def strIncludes (s sub : String) : Bool :=
  charsIncludes sub.data s.data

/-- JS `s.startsWith(pre)`, on the character sequences. -/
def strStartsWith (s pre : String) : Bool :=
  pre.data.isPrefixOf s.data

/-- JS `s.substring(n)`: the characters from index n on. -/
def strDrop (s : String) (n : Nat) : String :=
  ⟨s.data.drop n⟩

/-- JS `s.toLowerCase()`. -/
def strToLower (s : String) : String :=
  ⟨s.data.map Char.toLower⟩

/-- JS `s.trim()`: strip whitespace from both ends. -/
def strTrim (s : String) : String :=
  ⟨((s.data.dropWhile Char.isWhitespace).reverse.dropWhile Char.isWhitespace).reverse⟩

/-- JS object property read on an object modelled as an association list. -/
def alookup {α : Type} : List (String × α) → String → Option α
  | [], _ => none
  | (k, v) :: rest, key => if k = key then some v else alookup rest key

/-- JS property assignment on an association-list object: overwrite the
binding when the key is present, append it otherwise. -/
def aset {α : Type} : List (String × α) → String → α → List (String × α)
  | [], key, v => [(key, v)]
  | (k, w) :: rest, key, v =>
      if k = key then (key, v) :: rest else (k, w) :: aset rest key v

/-- OptionItem from OutputOptions.tsx: a leaf option key, or a named group of
nested items. -/
inductive OptionItem : Type where
  | leaf (key : String)
  | group (name : String) (children : List OptionItem)

/-- symbolKindLabels from OutputOptions.tsx. -/
def symbolKindLabels : List (String × String) :=
  [("class", "Classes"), ("interface", "Interfaces"), ("function", "Functions"),
   ("method", "Methods"), ("constructor", "Constructors"), ("variable", "Variables"),
   ("property", "Properties"), ("enum", "Enums"), ("enum_member", "Enum Members"),
   ("type_alias", "Type Aliases"), ("module", "Modules"),
   ("react_component", "React Components"), ("styled_component", "Styled Components"),
   ("jsx_element", "JSX Elements"),
   ("css_class", "CSS Classes"), ("css_id", "CSS IDs"), ("css_tag", "CSS Tags"),
   ("css_at_rule", "CSS At-Rules"), ("css_variable", "CSS Variables"),
   ("go_package", "Go Packages"),
   ("rust_struct", "Rust Structs"), ("rust_trait", "Rust Traits"),
   ("rust_impl", "Rust Impls")]

def tsDeclarationKinds : List String :=
  ["class", "interface", "function", "variable", "enum", "type_alias", "module"]

def tsMemberKinds : List String := ["method", "constructor", "property", "enum_member"]

def reactKinds : List String := ["react_component", "styled_component", "jsx_element"]

def cssKinds : List String := ["css_class", "css_id", "css_tag", "css_at_rule", "css_variable"]

def goKinds : List String := ["go_package"]

def rustKinds : List String := ["rust_struct", "rust_trait", "rust_impl"]

/-- toFilter from OutputOptions.tsx. -/
def toFilter (kind : String) : String := "filter:" ++ kind

/-- symbolVisibilityTree from OutputOptions.tsx. -/
def symbolVisibilityTree : OptionItem :=
  .group "Symbol Visibility"
    [.group "TypeScript/JavaScript"
      [.group "Declarations" (tsDeclarationKinds.map (fun k => .leaf (toFilter k))),
       .group "Members" (tsMemberKinds.map (fun k => .leaf (toFilter k)))],
     .group "React" (reactKinds.map (fun k => .leaf (toFilter k))),
     .group "CSS" (cssKinds.map (fun k => .leaf (toFilter k))),
     .group "Other Languages"
      [.group "Go" (goKinds.map (fun k => .leaf (toFilter k))),
       .group "Rust" (rustKinds.map (fun k => .leaf (toFilter k)))]]

/-- optionTree from OutputOptions.tsx. -/
def optionTree : List OptionItem :=
  [.group "Display Elements"
    [.leaf "showIcons",
     .group "Indicators" [.leaf "showExportedIndicator", .leaf "showPrivateIndicator"],
     .leaf "showModifiers",
     .leaf "showTags",
     .group "Identifiers" [.leaf "showFilePrefix", .leaf "showFileIds", .leaf "showSymbolIds"]],
   .group "Relationships" [.leaf "showOutgoing", .leaf "showIncoming"],
   .group "Structure" [.leaf "groupMembers", .leaf "showOnlyExports"],
   symbolVisibilityTree]

/-- optionLabels from OutputOptions.tsx: the spread of symbolKindLabels
followed by the explicit regular-option labels (all keys are distinct, so
list order does not affect lookup). -/
def optionLabels : List (String × String) :=
  symbolKindLabels ++
  [("showIcons", "Icons"), ("showExportedIndicator", "Exported (+)"),
   ("showPrivateIndicator", "Private (-)"), ("showModifiers", "Modifiers"),
   ("showTags", "Tags"), ("showSymbolIds", "Symbol IDs"),
   ("showFilePrefix", "File Prefix (§)"), ("showFileIds", "File IDs"),
   ("showOutgoing", "Outgoing"), ("showIncoming", "Incoming"),
   ("groupMembers", "Group Members"), ("showOnlyExports", "Show Only Exports")]

mutual

/-- getAllKeys from OutputOptions.tsx: pre-order flattening of leaf keys. -/
def getAllKeys : OptionItem → List String
  | .leaf k => [k]
  | .group _ cs => getAllKeysList cs

/-- Flattening of getAllKeys over a list of items (the flatMap in the source). -/
def getAllKeysList : List OptionItem → List String
  | [] => []
  | i :: is => getAllKeys i ++ getAllKeysList is

end

mutual

/-- getAllGroupNames from OutputOptions.tsx: every group name in the forest,
pre-order (the flatMap in the source, leaves contributing nothing). -/
def getAllGroupNames : List OptionItem → List String
  | [] => []
  | i :: rest => getAllGroupNamesItem i ++ getAllGroupNames rest

/-- The per-item branch of getAllGroupNames: a group yields its own name
followed by the names of its children, a leaf yields nothing. -/
def getAllGroupNamesItem : OptionItem → List String
  | .leaf _ => []
  | .group n cs => n :: getAllGroupNames cs

end

/-- FormattingOptions as the configuration UI reads and writes it: the regular
boolean option fields are modelled as the association list flags (an absent
field is an absent binding), displayFilters is the optional keyed filter map,
and preset the optional preset name. -/
structure FormattingOptions : Type where
  flags : List (String × Bool)
  displayFilters : Option (List (String × Bool))
  preset : Option String
deriving DecidableEq

/-- isSelected (spec 4.2); in the source this logic is inlined in areAllSelected,
in the leaf checkbox of renderItem and in allChecked: a filter key reads
displayFilters[kind] through the hasOwn guard defaulting to true (also when the
displayFilters object itself is absent), a regular key reads the option field
with the JS default `?? true`. -/
def isSelected (o : FormattingOptions) (key : String) : Bool :=
  if strStartsWith key "filter:" then
    match o.displayFilters with
    | none => true
    | some df => (alookup df (strDrop key 7)).getD true
  else (alookup o.flags key).getD true

/-- allChecked from renderItem in OutputOptions.tsx: the derived group-checkbox
value, allKeys.every over the key-selection test. -/
def allChecked (o : FormattingOptions) (item : OptionItem) : Bool :=
  (getAllKeys item).all (fun key => isSelected o key)

/-- The leaf label as the filter closure in filteredOptionTree computes it:
optionLabels[item] with the JS `|| item` fallback (which also falls back on an
empty-string label; no label constant is empty, so this coincides with `??`). -/
def leafLabel (key : String) : String :=
  match alookup optionLabels key with
  | some l => if l = "" then key else l
  | none => key

/-- The leaf label as renderItem displays it: the labelKey strips a leading
filter prefix from the key before the optionLabels lookup (`?? labelKey`). -/
def displayedLeafLabel (key : String) : String :=
  let labelKey := if strStartsWith key "filter:" then strDrop key 7 else key
  (alookup optionLabels labelKey).getD labelKey

mutual

/-- The inner filter function of filteredOptionTree in OutputOptions.tsx,
applied with the already-lowercased search term q: a leaf is kept when its
lowercased label includes q; a group whose lowercased name includes q is kept
whole; otherwise the group is kept with its filtered children when any child
survives and dropped when none does. -/
def filterItem (q : String) : OptionItem → Option OptionItem
  | .leaf key => if strIncludes (strToLower (leafLabel key)) q then some (.leaf key) else none
  | .group name cs =>
      if strIncludes (strToLower name) q then some (.group name cs)
      else
        let fcs := filterForest q cs
        if fcs.isEmpty then none else some (.group name fcs)

/-- The children.map(filter).filter(non-null) step of the source, and the same
map-and-drop-nulls applied to the top-level forest. -/
def filterForest (q : String) : List OptionItem → List OptionItem
  | [] => []
  | c :: cs =>
      match filterItem q c with
      | none => filterForest q cs
      | some c2 => c2 :: filterForest q cs

end

/-- filteredOptionTree from OutputOptions.tsx, generalized over the forest the
component closes over: a blank search term (empty after trim) returns the
forest unchanged, otherwise the forest is filtered with the lowercased
(untrimmed) search term. -/
def filteredTree (tree : List OptionItem) (searchTerm : String) : List OptionItem :=
  if strTrim searchTerm = "" then tree
  else filterForest (strToLower searchTerm) tree

/-- The component's own filteredOptionTree memo value, on the constant optionTree. -/
def filteredOptionTree (searchTerm : String) : List OptionItem :=
  filteredTree optionTree searchTerm

/-- allFilteredGroupNames from OutputOptions.tsx. -/
def allFilteredGroupNames (searchTerm : String) : List String :=
  getAllGroupNames (filteredOptionTree searchTerm)

/-- The search effect in OutputOptions.tsx: when the search term is non-blank,
expandedGroups is replaced by the set of allFilteredGroupNames; a blank term
leaves the previous expansion set alone. -/
def expandedAfterSearch (searchTerm : String) (prev : List String) : List String :=
  if strTrim searchTerm = "" then prev
  else allFilteredGroupNames searchTerm

/-- handleChange from OutputOptions.tsx (the single-key update, spec setOne):
a filter key writes displayFilters[kind] on the `prev.displayFilters ?? {}`
copy, a regular key writes the option field; both clear preset. -/
def setOne (o : FormattingOptions) (key : String) (v : Bool) : FormattingOptions :=
  if strStartsWith key "filter:" then
    { o with preset := none,
             displayFilters := some (aset (o.displayFilters.getD []) (strDrop key 7) v) }
  else
    { o with preset := none, flags := aset o.flags key v }

/-- handleGroupChange from OutputOptions.tsx (the group-toggle update, spec
setMany): starting from the previous options with preset cleared and a copy of
`prev.displayFilters ?? {}`, the loop writes every filter key into the filter
map and every regular key into the option fields, then installs the new filter
map. -/
def setMany (o : FormattingOptions) (keys : List String) (v : Bool) : FormattingOptions :=
  let res := keys.foldl
    (fun (acc : List (String × Bool) × List (String × Bool)) key =>
      if strStartsWith key "filter:" then (acc.1, aset acc.2 (strDrop key 7) v)
      else (aset acc.1 key v, acc.2))
    (o.flags, o.displayFilters.getD [])
  { flags := res.1, displayFilters := some res.2, preset := none }

/-- FormattingOptionsTokenImpact as groupTokenImpact reads it: an optional
per-option cost map and an optional per-filter-kind cost map, both with
signed-integer costs. -/
structure TokenImpact : Type where
  options : Option (List (String × Int))
  displayFilters : Option (List (String × Int))
deriving DecidableEq

/-- The per-key impact read in groupTokenImpact (and the leaf impact display):
a filter key reads tokenImpact.displayFilters[kind] through the hasOwn guard,
a regular key reads tokenImpact.options?.[key]; undefined when absent. -/
def impactOf (t : TokenImpact) (key : String) : Option Int :=
  if strStartsWith key "filter:" then
    match t.displayFilters with
    | none => none
    | some df => alookup df (strDrop key 7)
  else
    match t.options with
    | none => none
    | some os => alookup os key

/-- groupTokenImpact from renderItem in OutputOptions.tsx: the reduce over
allKeys summing each key's impact with `?? 0`. -/
def groupTokenImpact (t : TokenImpact) (item : OptionItem) : Int :=
  (getAllKeys item).foldl (fun sum key => sum + (impactOf t key).getD 0) 0

/-- A path from the root of an item down to a leaf with the given key, recording
the names of the enclosing groups outermost first. -/
inductive PathTo : String → List String → OptionItem → Prop where
  | leaf (k : String) : PathTo k [] (.leaf k)
  | group (k : String) (anc : List String) (n : String) (cs : List OptionItem)
      (c : OptionItem) (hc : c ∈ cs) (hp : PathTo k anc c) :
      PathTo k (n :: anc) (.group n cs)

/-- A group named g occurs somewhere in the item. -/
inductive GroupIn : String → OptionItem → Prop where
  | here (g : String) (cs : List OptionItem) : GroupIn g (.group g cs)
  | there (g n : String) (cs : List OptionItem) (c : OptionItem)
      (hc : c ∈ cs) (hg : GroupIn g c) : GroupIn g (.group n cs)

/-- LogEntry from src/types.ts as the hook uses it: level, message, timestamp. -/
structure LogEntry : Type where
  level : String
  message : String
  timestamp : Nat
deriving DecidableEq

/-- ProgressData as the hook stores it: a percentage and a phase message. -/
structure ProgressData : Type where
  percentage : Nat
  message : String
deriving DecidableEq

/-- A per-file analyzer output record; its internals never matter to the hook,
which only stores the list it receives. -/
structure SourceFile : Type where
  path : String
deriving DecidableEq

/-- The React state owned by useAnalysis (useAnalysis.hook.ts), plus the
serviceRef-is-set flag the guard also reads. -/
structure AnalysisState : Type where
  isInitialized : Bool
  hasService : Bool
  isLoading : Bool
  analysisResult : Option (List SourceFile)
  progress : Option ProgressData
  logs : List LogEntry
  analysisTime : Option Nat
  tokenImpact : Option TokenImpact
deriving DecidableEq

/-- The three exit paths of the synchronous prefix of handleAnalyze:
the not-ready early return (after a warn log), the isLoading early return
(silent), or dispatching the analysis. -/
inductive StartResult : Type where
  | notReady
  | ignoredBusy
  | dispatched
deriving DecidableEq

/-- The synchronous prefix of handleAnalyze in useAnalysis.hook.ts, up to the
await of service.analyze: the not-ready guard logs a warning and returns; the
isLoading guard returns with no effect at all; otherwise isLoading is set and
resetAnalysisState clears result, time, progress, token impact and logs before
the dispatch. -/
def handleAnalyzeStart (s : AnalysisState) (now : Nat) : AnalysisState × StartResult :=
  if !s.isInitialized || !s.hasService then
    ({ s with logs := s.logs ++ [⟨"warn", "Analysis worker not ready.", now⟩] },
     .notReady)
  else if s.isLoading then (s, .ignoredBusy)
  else
    ({ s with isLoading := true,
              analysisResult := none, analysisTime := none, progress := none,
              tokenImpact := none, logs := [] },
     .dispatched)

/-- How the awaited service.analyze call settles: a resolved value
(result, analysisTime, tokenImpact) or a rejection carrying the error's
name and message. -/
inductive RunOutcome : Type where
  | success (result : List SourceFile) (analysisTime : Nat) (tokenImpact : TokenImpact)
  | failure (name : String) (message : String)

/-- The continuation of handleAnalyze after the await settles, applied to the
state as it stands at that moment: on success the result, time and token
impact are stored; on rejection an AbortError logs a warn entry and any other
error logs an error entry; the finally block clears isLoading and progress on
every path. -/
def handleAnalyzeFinish (s : AnalysisState) (outcome : RunOutcome) (now : Nat) :
    AnalysisState :=
  match outcome with
  | .success r t imp =>
      { s with analysisResult := some r, analysisTime := some t,
               tokenImpact := some imp, isLoading := false, progress := none }
  | .failure nm msg =>
      let entry : LogEntry :=
        if nm = "AbortError" then ⟨"warn", "Analysis canceled by user.", now⟩
        else ⟨"error", "Analysis error: " ++ msg, now⟩
      { s with logs := s.logs ++ [entry], isLoading := false, progress := none }

/-- FileContent as the worker parses it out of the files-input JSON: a path
and the file's text. -/
structure FileContent : Type where
  path : String
  content : String
deriving DecidableEq

/-- JS s.split with a newline separator, on the character list: splitting the
empty string yields one empty piece, as in JS. -/
def splitNewlinesAux : List Char → List Char → List String
  | [], acc => [⟨acc.reverse⟩]
  | c :: cs, acc =>
      if c = '\n' then ⟨acc.reverse⟩ :: splitNewlinesAux cs []
      else splitNewlinesAux cs (c :: acc)

/-- The include/exclude preprocessing in the worker's analyze (concatenated
into src/default-files.ts, worker.ts part): split on newlines and drop the
lines that are blank after trimming. -/
def splitPatterns (s : String) : List String :=
  (splitNewlinesAux s.data []).filter (fun p => strTrim p != "")

/-- The request message createAnalysisService.analyze posts across the worker
boundary (analysis.service.ts, concatenated into src/default-files.ts): the
service packs its positional arguments — including the formattingOptions value
the hook passed when the run was requested — into this one payload. -/
structure AnalyzeRequest : Type where
  filesInput : String
  logLevel : String
  formattingOptions : FormattingOptions
  includePattern : String
  excludePattern : String

/-- The worker's analyze handler (worker.ts, concatenated into
src/default-files.ts): reject when not initialized; parse the files input
(the host JSON engine is external, so the parse outcome and its error text are
parameters); split the include and exclude patterns; run the external
analyzeProject (a parameter returning the source files and the elapsed time);
then compute tokenImpact with calculateTokenImpact (external, scn-ts-core)
applied to the analysis result and the formattingOptions destructured from
the request message, and resolve with the sanitized result, the time and that
impact table. sanitizeAnalysisResult is passed abstractly: it rewrites ast and
language fields this model's SourceFile does not carry, and it touches neither
element count nor the impact table. -/
def workerAnalyze
    (calculateTokenImpact : List SourceFile → FormattingOptions → TokenImpact)
    (sanitizeAnalysisResult : List SourceFile → List SourceFile)
    (analyzeProject : List FileContent → List String → List String →
      List SourceFile × Nat)
    (isInitialized : Bool) (parsedFiles : Option (List FileContent))
    (parseErrMsg : String) (req : AnalyzeRequest) : RunOutcome :=
  if !isInitialized then .failure "Error" "Worker not initialized."
  else
    match parsedFiles with
    | none => .failure "Error" ("Invalid JSON input: " ++ parseErrMsg)
    | some files =>
        let inc := splitPatterns req.includePattern
        let exc := splitPatterns req.excludePattern
        let res := analyzeProject files inc exc
        .success (sanitizeAnalysisResult res.1) res.2
          (calculateTokenImpact res.1 req.formattingOptions)

/-- createAnalysisService.analyze (analysis.service.ts, concatenated into
src/default-files.ts): forwards its positional arguments as the single request
message to the worker and resolves with what the worker resolves. -/
def serviceAnalyze
    (calculateTokenImpact : List SourceFile → FormattingOptions → TokenImpact)
    (sanitizeAnalysisResult : List SourceFile → List SourceFile)
    (analyzeProject : List FileContent → List String → List String →
      List SourceFile × Nat)
    (isInitialized : Bool) (parsedFiles : Option (List FileContent))
    (parseErrMsg : String) (filesInput logLevel : String)
    (formattingOptions : FormattingOptions)
    (includePattern excludePattern : String) : RunOutcome :=
  workerAnalyze calculateTokenImpact sanitizeAnalysisResult analyzeProject
    isInitialized parsedFiles parseErrMsg
    ⟨filesInput, logLevel, formattingOptions, includePattern, excludePattern⟩

/-- The store fields App.handleAnalyze reads (useAppStore, concatenated into
src/default-files.ts; App.tsx passes them positionally to performAnalysis). -/
structure AppStoreSnapshot : Type where
  filesInput : String
  formattingOptions : FormattingOptions
  includePattern : String
  excludePattern : String

/-- One successful end-to-end run as App.tsx, useAnalysis.hook.ts, the service
and the worker wire it: App's handleAnalyze passes the store fields captured
when the run was requested (the click-time closure), the hook dispatches them
with logLevel "debug", the service packs them into the worker request, the
initialized worker parses the input and analyzes, and the hook's continuation
stores what came back. storeAtRequest is the click-time snapshot; sMid is the
hook state as it stands when the await settles (progress and log events may
have updated it meanwhile). -/
def runToCompletion
    (calculateTokenImpact : List SourceFile → FormattingOptions → TokenImpact)
    (sanitizeAnalysisResult : List SourceFile → List SourceFile)
    (analyzeProject : List FileContent → List String → List String →
      List SourceFile × Nat)
    (parsedFiles : List FileContent)
    (storeAtRequest : AppStoreSnapshot) (sMid : AnalysisState) (now : Nat) :
    AnalysisState :=
  handleAnalyzeFinish sMid
    (serviceAnalyze calculateTokenImpact sanitizeAnalysisResult analyzeProject
      true (some parsedFiles) "" storeAtRequest.filesInput "debug"
      storeAtRequest.formattingOptions storeAtRequest.includePattern
      storeAtRequest.excludePattern)
    now

theorem alookup_aset_self {α : Type} (l : List (String × α)) (key : String) (v : α) :
    alookup (aset l key v) key = some v := by
  induction l with
  | nil => simp [aset, alookup]
  | cons p rest ih =>
    obtain ⟨k, w⟩ := p
    by_cases h : k = key
    · subst h; simp [aset, alookup]
    · simp [aset, alookup, h, ih]

theorem alookup_aset_ne {α : Type} (l : List (String × α)) (key k2 : String) (v : α)
    (h : k2 ≠ key) : alookup (aset l key v) k2 = alookup l k2 := by
  have h2 : key ≠ k2 := fun he => h he.symm
  induction l with
  | nil => simp [aset, alookup, h2]
  | cons p rest ih =>
    obtain ⟨k, w⟩ := p
    by_cases hk : k = key
    · subst hk
      simp [aset, alookup, h2]
    · simp [aset, alookup, hk, ih]

theorem strStartsWith_filter_eq (key : String)
    (h : strStartsWith key "filter:" = true) :
    key = toFilter (strDrop key 7) := by
  obtain ⟨d⟩ := key
  have hp : "filter:".data <+: d := List.isPrefixOf_iff_prefix.mp h
  obtain ⟨t, ht⟩ := hp
  have hdrop : d.drop 7 = t := by
    rw [← ht]
    exact List.drop_left' (by decide)
  show String.mk d = "filter:" ++ strDrop ⟨d⟩ 7
  have : strDrop (String.mk d) 7 = ⟨t⟩ := by simp [strDrop, hdrop]
  rw [this, ← ht]
  rfl

/-- C2: for every ConfigTree group and every OptionState, the derived
group-checkbox value allChecked is true exactly when isSelected (which
defaults an absent key, regular flag or filter kind, to true) holds for
every leaf key under the group. -/
theorem claim2_allChecked_iff_every_selected (o : FormattingOptions) (item : OptionItem) :
    allChecked o item = true ↔ ∀ key ∈ getAllKeys item, isSelected o key = true := by
  simp [allChecked, List.all_eq_true]

/-- C6: filteredOptionTree applied with the empty query returns the original
forest unchanged, for every forest. -/
theorem claim6_filter_empty_query_identity (tree : List OptionItem) :
    filteredTree tree "" = tree := by
  have h : strTrim "" = "" := by decide
  simp [filteredTree, h]

theorem foldl_add_getD (f : String → Int) (l : List String) (a : Int) :
    l.foldl (fun sum k => sum + f k) a = a + (l.map f).sum := by
  induction l generalizing a with
  | nil => simp
  | cons x xs ih => simp [ih, add_assoc]

/-- C8: for every cost table and ConfigTree node, the aggregate impact shown
for the node equals the sum over all leaf keys under the node of that key's
cost, a key absent from the table contributing zero. -/
theorem claim8_groupTokenImpact_is_sum (t : TokenImpact) (item : OptionItem) :
    groupTokenImpact t item
      = ((getAllKeys item).map (fun k => (impactOf t k).getD 0)).sum := by
  simp [groupTokenImpact, foldl_add_getD]

theorem setManyFold_flags_frame (v : Bool) (keys : List String) (k : String)
    (hk : k ∉ keys) :
    ∀ f0 d0 : List (String × Bool),
      alookup (keys.foldl
        (fun acc key =>
          if strStartsWith key "filter:" then (acc.1, aset acc.2 (strDrop key 7) v)
          else (aset acc.1 key v, acc.2))
        (f0, d0)).1 k = alookup f0 k := by
  induction keys with
  | nil => intro f0 d0; rfl
  | cons key rest ih =>
    intro f0 d0
    simp only [List.mem_cons, not_or] at hk
    obtain ⟨hne, hrest⟩ := hk
    simp only [List.foldl_cons]
    by_cases hf : strStartsWith key "filter:"
    · simp only [hf, if_pos]
      exact ih hrest f0 _
    · simp only [hf, if_neg, Bool.false_eq_true, not_false_iff]
      rw [ih hrest]
      exact alookup_aset_ne _ _ _ _ hne

theorem setManyFold_flags_sticky (v : Bool) (keys : List String) (k : String) :
    ∀ f0 d0 : List (String × Bool), alookup f0 k = some v →
      alookup (keys.foldl
        (fun acc key =>
          if strStartsWith key "filter:" then (acc.1, aset acc.2 (strDrop key 7) v)
          else (aset acc.1 key v, acc.2))
        (f0, d0)).1 k = some v := by
  induction keys with
  | nil => intro f0 d0 h; exact h
  | cons key rest ih =>
    intro f0 d0 h
    simp only [List.foldl_cons]
    by_cases hf : strStartsWith key "filter:"
    · simp only [hf, if_pos]
      exact ih f0 _ h
    · simp only [hf, if_neg, Bool.false_eq_true, not_false_iff]
      apply ih
      by_cases hk : k = key
      · subst hk; exact alookup_aset_self _ _ _
      · rw [alookup_aset_ne _ _ _ _ hk]; exact h

theorem setManyFold_df_frame (v : Bool) (keys : List String) (kind : String)
    (hk : toFilter kind ∉ keys) :
    ∀ f0 d0 : List (String × Bool),
      alookup (keys.foldl
        (fun acc key =>
          if strStartsWith key "filter:" then (acc.1, aset acc.2 (strDrop key 7) v)
          else (aset acc.1 key v, acc.2))
        (f0, d0)).2 kind = alookup d0 kind := by
  induction keys with
  | nil => intro f0 d0; rfl
  | cons key rest ih =>
    intro f0 d0
    simp only [List.mem_cons, not_or] at hk
    obtain ⟨hne, hrest⟩ := hk
    simp only [List.foldl_cons]
    by_cases hf : strStartsWith key "filter:"
    · simp only [hf, if_pos]
      rw [ih hrest]
      apply alookup_aset_ne
      intro he
      exact hne (by rw [strStartsWith_filter_eq key hf, he])
    · simp only [hf, if_neg, Bool.false_eq_true, not_false_iff]
      exact ih hrest _ d0

theorem setManyFold_df_sticky (v : Bool) (keys : List String) (kind : String) :
    ∀ f0 d0 : List (String × Bool), alookup d0 kind = some v →
      alookup (keys.foldl
        (fun acc key =>
          if strStartsWith key "filter:" then (acc.1, aset acc.2 (strDrop key 7) v)
          else (aset acc.1 key v, acc.2))
        (f0, d0)).2 kind = some v := by
  induction keys with
  | nil => intro f0 d0 h; exact h
  | cons key rest ih =>
    intro f0 d0 h
    simp only [List.foldl_cons]
    by_cases hf : strStartsWith key "filter:"
    · simp only [hf, if_pos]
      apply ih
      by_cases hk : kind = strDrop key 7
      · subst hk; exact alookup_aset_self _ _ _
      · rw [alookup_aset_ne _ _ _ _ hk]; exact h
    · simp only [hf, if_neg, Bool.false_eq_true, not_false_iff]
      exact ih _ d0 h

theorem setManyFold_flags_mem (v : Bool) (keys : List String) (k : String)
    (hk : k ∈ keys) (hnf : strStartsWith k "filter:" = false) :
    ∀ f0 d0 : List (String × Bool),
      alookup (keys.foldl
        (fun acc key =>
          if strStartsWith key "filter:" then (acc.1, aset acc.2 (strDrop key 7) v)
          else (aset acc.1 key v, acc.2))
        (f0, d0)).1 k = some v := by
  induction keys with
  | nil => cases hk
  | cons key rest ih =>
    intro f0 d0
    simp only [List.foldl_cons]
    rcases List.mem_cons.mp hk with rfl | hmem
    · simp only [hnf, Bool.false_eq_true, if_neg, not_false_iff]
      exact setManyFold_flags_sticky v rest k _ _ (alookup_aset_self _ _ _)
    · by_cases hf : strStartsWith key "filter:"
      · simp only [hf, if_pos]
        exact ih hmem f0 _
      · simp only [hf, Bool.false_eq_true, if_neg, not_false_iff]
        exact ih hmem _ d0

theorem setManyFold_df_mem (v : Bool) (keys : List String) (k : String)
    (hk : k ∈ keys) (hf0 : strStartsWith k "filter:" = true) :
    ∀ f0 d0 : List (String × Bool),
      alookup (keys.foldl
        (fun acc key =>
          if strStartsWith key "filter:" then (acc.1, aset acc.2 (strDrop key 7) v)
          else (aset acc.1 key v, acc.2))
        (f0, d0)).2 (strDrop k 7) = some v := by
  induction keys with
  | nil => cases hk
  | cons key rest ih =>
    intro f0 d0
    simp only [List.foldl_cons]
    rcases List.mem_cons.mp hk with rfl | hmem
    · simp only [hf0, if_pos]
      exact setManyFold_df_sticky v rest _ _ _ (alookup_aset_self _ _ _)
    · by_cases hf : strStartsWith key "filter:"
      · simp only [hf, if_pos]
        exact ih hmem f0 _
      · simp only [hf, Bool.false_eq_true, if_neg, not_false_iff]
        exact ih hmem _ d0

/-- C7: the group-toggle update setMany writes the given boolean at every
listed key (into the filter map for filter keys, into the flags for regular
keys), clears the preset, and leaves every flag and display-filter entry whose
key is not listed unchanged; the single-key update setOne likewise clears the
preset, writes its one key, and leaves every other entry of both maps
unchanged. -/
theorem claim7_setMany_setOne_frame (o : FormattingOptions) (v : Bool) :
    (∀ keys : List String,
      (setMany o keys v).preset = none ∧
      (∀ k ∈ keys, strStartsWith k "filter:" = false →
        alookup (setMany o keys v).flags k = some v) ∧
      (∀ k ∈ keys, strStartsWith k "filter:" = true →
        alookup ((setMany o keys v).displayFilters.getD []) (strDrop k 7) = some v) ∧
      (∀ k, k ∉ keys →
        alookup (setMany o keys v).flags k = alookup o.flags k) ∧
      (∀ kind, toFilter kind ∉ keys →
        alookup ((setMany o keys v).displayFilters.getD []) kind
          = alookup (o.displayFilters.getD []) kind)) ∧
    (∀ key : String,
      (setOne o key v).preset = none ∧
      (strStartsWith key "filter:" = false →
        alookup (setOne o key v).flags key = some v ∧
        (∀ k2, k2 ≠ key →
          alookup (setOne o key v).flags k2 = alookup o.flags k2) ∧
        (setOne o key v).displayFilters = o.displayFilters) ∧
      (strStartsWith key "filter:" = true →
        alookup ((setOne o key v).displayFilters.getD []) (strDrop key 7) = some v ∧
        (∀ kind, kind ≠ strDrop key 7 →
          alookup ((setOne o key v).displayFilters.getD []) kind
            = alookup (o.displayFilters.getD []) kind) ∧
        (setOne o key v).flags = o.flags)) := by
  constructor
  · intro keys
    refine ⟨rfl, ?_, ?_, ?_, ?_⟩
    · intro k hk hnf
      exact setManyFold_flags_mem v keys k hk hnf o.flags _
    · intro k hk hf
      exact setManyFold_df_mem v keys k hk hf o.flags _
    · intro k hk
      exact setManyFold_flags_frame v keys k hk o.flags _
    · intro kind hk
      exact setManyFold_df_frame v keys kind hk o.flags _
  · intro key
    refine ⟨?_, ?_, ?_⟩
    · by_cases hf : strStartsWith key "filter:" <;> simp [setOne, hf]
    · intro hnf
      refine ⟨?_, ?_, ?_⟩
      · simp only [setOne, hnf, Bool.false_eq_true, if_neg, not_false_iff]
        exact alookup_aset_self _ _ _
      · intro k2 hk2
        simp only [setOne, hnf, Bool.false_eq_true, if_neg, not_false_iff]
        exact alookup_aset_ne _ _ _ _ hk2
      · simp [setOne, hnf]
    · intro hf
      refine ⟨?_, ?_, ?_⟩
      · simp only [setOne, hf, if_pos, Option.getD_some]
        exact alookup_aset_self _ _ _
      · intro kind hkind
        simp only [setOne, hf, if_pos, Option.getD_some]
        exact alookup_aset_ne _ _ _ _ hkind
      · simp [setOne, hf]

theorem mem_getAllGroupNames_iff :
    ∀ forest : List OptionItem, ∀ g : String,
      g ∈ getAllGroupNames forest ↔ ∃ item ∈ forest, GroupIn g item := by
  refine getAllGroupNames.induct _
    (fun item => ∀ g, g ∈ getAllGroupNamesItem item ↔ GroupIn g item) ?_ ?_ ?_ ?_
  · intro key g
    constructor
    · intro h; cases h
    · intro h; cases h
  · intro n cs ih g
    constructor
    · intro h
      rcases List.mem_cons.mp h with rfl | hmem
      · exact GroupIn.here g cs
      · obtain ⟨c, hc, hgc⟩ := (ih g).mp hmem
        exact GroupIn.there g n cs c hc hgc
    · intro h
      cases h with
      | here => exact List.mem_cons_self _ _
      | there _ _ c hc hgc =>
        exact List.mem_cons_of_mem _ ((ih g).mpr ⟨c, hc, hgc⟩)
  · intro g
    simp [getAllGroupNames]
  · intro i rest ihi ihrest g
    constructor
    · intro h
      rcases List.mem_append.mp h with hi | hr
      · exact ⟨i, List.mem_cons_self _ _, (ihi g).mp hi⟩
      · obtain ⟨item, hitem, hg⟩ := (ihrest g).mp hr
        exact ⟨item, List.mem_cons_of_mem _ hitem, hg⟩
    · rintro ⟨item, hitem, hg⟩
      rcases List.mem_cons.mp hitem with rfl | hmem
      · exact List.mem_append.mpr (Or.inl ((ihi g).mpr hg))
      · exact List.mem_append.mpr (Or.inr ((ihrest g).mpr ⟨item, hmem, hg⟩))

/-- C10: whenever the search term is non-blank, the search effect replaces the
expanded-group set with exactly the group names present in the filtered tree:
a name is expanded if and only if a group bearing it occurs in
filteredOptionTree. -/
theorem claim10_search_expands_exactly_filtered_groups
    (searchTerm : String) (prev : List String)
    (h : strTrim searchTerm ≠ "") :
    ∀ g, g ∈ expandedAfterSearch searchTerm prev ↔
      ∃ item ∈ filteredOptionTree searchTerm, GroupIn g item := by
  intro g
  rw [expandedAfterSearch, if_neg h, allFilteredGroupNames]
  exact mem_getAllGroupNames_iff _ g

theorem claim10_witness :
    strTrim "React" ≠ "" ∧
    (∀ g, g ∈ expandedAfterSearch "React" [] ↔
      ∃ item ∈ filteredOptionTree "React", GroupIn g item) :=
  ⟨by decide, claim10_search_expands_exactly_filtered_groups "React" [] (by decide)⟩

theorem pathTo_groupIn {k : String} {anc : List String} {item : OptionItem}
    (h : PathTo k anc item) : ∀ g ∈ anc, GroupIn g item := by
  induction h with
  | leaf => intro g hg; cases hg
  | group anc n cs c hc hp ih =>
    intro g hg
    rcases List.mem_cons.mp hg with rfl | hmem
    · exact GroupIn.here g cs
    · exact GroupIn.there g n cs c hc (ih g hmem)

theorem filterItem_mem_filterForest {q : String} {c c2 : OptionItem}
    {cs : List OptionItem} (hc : c ∈ cs) (h : filterItem q c = some c2) :
    c2 ∈ filterForest q cs := by
  induction cs with
  | nil => cases hc
  | cons d ds ih =>
    rcases List.mem_cons.mp hc with rfl | hmem
    · rw [filterForest, h]
      exact List.mem_cons_self _ _
    · rw [filterForest]
      cases hd : filterItem q d with
      | none => exact ih hmem
      | some d2 => exact List.mem_cons_of_mem _ (ih hmem)

theorem filterItem_keeps_matching_leaf_ancestors {q k : String} {anc : List String}
    {item : OptionItem} (hpath : PathTo k anc item)
    (hmatch : strIncludes (strToLower (leafLabel k)) q = true) :
    ∃ item2, filterItem q item = some item2 ∧ ∀ g ∈ anc, GroupIn g item2 := by
  induction hpath with
  | leaf =>
    refine ⟨.leaf k, ?_, ?_⟩
    · rw [filterItem, if_pos hmatch]
    · intro g hg; cases hg
  | group anc n cs c hc hp ih =>
    by_cases hn : strIncludes (strToLower n) q = true
    · refine ⟨.group n cs, by rw [filterItem, if_pos hn], ?_⟩
      intro g hg
      rcases List.mem_cons.mp hg with rfl | hmem
      · exact GroupIn.here g cs
      · exact GroupIn.there g n cs c hc (pathTo_groupIn hp g hmem)
    · obtain ⟨c2, hc2, hanc⟩ := ih
      have hcmem : c2 ∈ filterForest q cs := filterItem_mem_filterForest hc hc2
      have hne : (filterForest q cs).isEmpty = false := by
        cases he : (filterForest q cs).isEmpty
        · rfl
        · rw [List.isEmpty_iff] at he
          rw [he] at hcmem
          cases hcmem
      refine ⟨.group n (filterForest q cs), ?_, ?_⟩
      · rw [filterItem, if_neg hn]
        simp only [hne, Bool.false_eq_true, if_neg, not_false_iff]
      · intro g hg
        rcases List.mem_cons.mp hg with rfl | hmem
        · exact GroupIn.here g _
        · exact GroupIn.there g n _ c2 hcmem (hanc g hmem)

/-- C5: if a leaf's label matches the query case-insensitively, every ancestor
group on the path from the forest root to that leaf is still present in the
output of the filter, whether or not any ancestor's own name matches. -/
theorem claim5_ancestor_groups_survive_filter
    (tree : List OptionItem) (searchTerm k : String) (anc : List String)
    (item : OptionItem) (hmem : item ∈ tree) (hpath : PathTo k anc item)
    (hmatch : strIncludes (strToLower (leafLabel k)) (strToLower searchTerm) = true) :
    ∀ g ∈ anc, ∃ item2 ∈ filteredTree tree searchTerm, GroupIn g item2 := by
  intro g hg
  by_cases hblank : strTrim searchTerm = ""
  · rw [filteredTree, if_pos hblank]
    exact ⟨item, hmem, pathTo_groupIn hpath g hg⟩
  · rw [filteredTree, if_neg hblank]
    obtain ⟨item2, hit, hanc⟩ :=
      filterItem_keeps_matching_leaf_ancestors hpath hmatch
    exact ⟨item2, filterItem_mem_filterForest hmem hit, hanc g hg⟩

theorem claim5_witness :
    (OptionItem.group "G" [OptionItem.group "H" [OptionItem.leaf "showIcons"]])
        ∈ [OptionItem.group "G" [OptionItem.group "H" [OptionItem.leaf "showIcons"]]] ∧
    PathTo "showIcons" ["G", "H"]
      (OptionItem.group "G" [OptionItem.group "H" [OptionItem.leaf "showIcons"]]) ∧
    strIncludes (strToLower (leafLabel "showIcons")) (strToLower "Icons") = true ∧
    ∀ g ∈ ["G", "H"],
      ∃ item2 ∈ filteredTree
        [OptionItem.group "G" [OptionItem.group "H" [OptionItem.leaf "showIcons"]]]
        "Icons", GroupIn g item2 := by
  have hmem :
      (OptionItem.group "G" [OptionItem.group "H" [OptionItem.leaf "showIcons"]])
        ∈ [OptionItem.group "G" [OptionItem.group "H" [OptionItem.leaf "showIcons"]]] :=
    List.mem_cons_self _ _
  have hpath : PathTo "showIcons" ["G", "H"]
      (OptionItem.group "G" [OptionItem.group "H" [OptionItem.leaf "showIcons"]]) :=
    PathTo.group _ _ _ _ _ (List.mem_cons_self _ _)
      (PathTo.group _ _ _ _ _ (List.mem_cons_self _ _) (PathTo.leaf _))
  refine ⟨hmem, hpath, by decide, ?_⟩
  exact claim5_ancestor_groups_survive_filter _ "Icons" "showIcons" _ _ hmem hpath
    (by decide)

/-- C4 evaluated at the failing input: the filter leaf with key filter:class
is displayed with the human-readable label Classes, and that label matches the
query Classes case-insensitively, yet the filter drops the leaf — the filter
closure computes the label from the raw key because its optionLabels lookup
never strips the filter prefix, unlike renderItem; conversely the query
filter keeps the leaf through its raw key although the displayed label does
not contain it. -/
theorem claim4_filter_matches_raw_key_not_label :
    displayedLeafLabel "filter:class" = "Classes" ∧
    strIncludes (strToLower (displayedLeafLabel "filter:class"))
      (strToLower "Classes") = true ∧
    leafLabel "filter:class" = "filter:class" ∧
    filterItem (strToLower "Classes") (OptionItem.leaf "filter:class") = none ∧
    strIncludes (strToLower (displayedLeafLabel "filter:class"))
      (strToLower "filter") = false ∧
    filterItem (strToLower "filter") (OptionItem.leaf "filter:class")
      = some (OptionItem.leaf "filter:class") :=
  ⟨by decide, by decide, by decide, rfl, by decide, rfl⟩

/-- C1 (amended): a run request issued while a job is already running is
silently ignored — the call returns through the early-return path with the
hook state completely untouched, nothing queued and no error of any kind
surfaced — and a dispatch is only ever accepted from a non-loading state, so
at most one job runs at a time. -/
theorem claim1_busy_run_is_silent_noop :
    (∀ (s : AnalysisState) (now : Nat),
      s.isInitialized = true → s.hasService = true → s.isLoading = true →
      handleAnalyzeStart s now = (s, .ignoredBusy)) ∧
    (∀ (s : AnalysisState) (now : Nat),
      (handleAnalyzeStart s now).2 = .dispatched → s.isLoading = false) := by
  constructor
  · intro s now hi hs hl
    simp [handleAnalyzeStart, hi, hs, hl]
  · intro s now h
    by_cases h1 : s.isInitialized = true
    · by_cases h2 : s.hasService = true
      · by_cases h3 : s.isLoading = true
        · exfalso
          simp [handleAnalyzeStart, h1, h2, h3] at h
        · simpa using h3
      · exfalso
        simp only [Bool.not_eq_true] at h2
        simp [handleAnalyzeStart, h1, h2] at h
    · exfalso
      simp only [Bool.not_eq_true] at h1
      simp [handleAnalyzeStart, h1] at h

theorem claim1_witness :
    (⟨true, true, true, some [⟨"a.ts"⟩], some ⟨50, "parsing"⟩,
      [⟨"info", "Analysis worker ready.", 1⟩], none, none⟩ : AnalysisState).isInitialized
        = true ∧
    (⟨true, true, true, some [⟨"a.ts"⟩], some ⟨50, "parsing"⟩,
      [⟨"info", "Analysis worker ready.", 1⟩], none, none⟩ : AnalysisState).hasService
        = true ∧
    (⟨true, true, true, some [⟨"a.ts"⟩], some ⟨50, "parsing"⟩,
      [⟨"info", "Analysis worker ready.", 1⟩], none, none⟩ : AnalysisState).isLoading
        = true ∧
    handleAnalyzeStart
      ⟨true, true, true, some [⟨"a.ts"⟩], some ⟨50, "parsing"⟩,
       [⟨"info", "Analysis worker ready.", 1⟩], none, none⟩ 42
      = (⟨true, true, true, some [⟨"a.ts"⟩], some ⟨50, "parsing"⟩,
          [⟨"info", "Analysis worker ready.", 1⟩], none, none⟩, .ignoredBusy) :=
  ⟨rfl, rfl, rfl,
   claim1_busy_run_is_silent_noop.1
     ⟨true, true, true, some [⟨"a.ts"⟩], some ⟨50, "parsing"⟩,
      [⟨"info", "Analysis worker ready.", 1⟩], none, none⟩ 42 rfl rfl rfl⟩

/-- C1 as stated is false at this input: with a job running (isLoading set and
distinctive result, progress and log state), a second run request returns
through the silent ignoredBusy exit with the state identical — the code has no
BusyError and the call does not reject, it resolves as a plain no-op. -/
theorem claim1_counterexample_no_busy_rejection :
    handleAnalyzeStart
      ⟨true, true, true, some [⟨"a.ts"⟩], some ⟨50, "parsing"⟩,
       [⟨"info", "Analysis worker ready.", 1⟩], none, none⟩ 42
      = (⟨true, true, true, some [⟨"a.ts"⟩], some ⟨50, "parsing"⟩,
          [⟨"info", "Analysis worker ready.", 1⟩], none, none⟩, .ignoredBusy) := by
  decide

/-- C9: a dispatched run has already cleared the previous job's analysis
result, elapsed time, progress, token impact and logs in its synchronous
prefix, and the failure continuation never restores them (it only appends its
own log entry), so earlier output is never visible alongside a later job. -/
theorem claim9_accepted_run_clears_previous_output :
    (∀ (s s2 : AnalysisState) (now : Nat),
      handleAnalyzeStart s now = (s2, .dispatched) →
      s2.analysisResult = none ∧ s2.analysisTime = none ∧ s2.progress = none ∧
      s2.tokenImpact = none ∧ s2.logs = [] ∧ s2.isLoading = true) ∧
    (∀ (s : AnalysisState) (nm msg : String) (now : Nat),
      (handleAnalyzeFinish s (.failure nm msg) now).analysisResult
        = s.analysisResult ∧
      (handleAnalyzeFinish s (.failure nm msg) now).analysisTime
        = s.analysisTime ∧
      (handleAnalyzeFinish s (.failure nm msg) now).tokenImpact
        = s.tokenImpact) := by
  constructor
  · intro s s2 now h
    unfold handleAnalyzeStart at h
    split at h
    · simp at h
    · split at h
      · simp at h
      · have h2 := congrArg Prod.fst h
        simp only at h2
        subst h2
        exact ⟨rfl, rfl, rfl, rfl, rfl, rfl⟩
  · intro s nm msg now
    refine ⟨?_, ?_, ?_⟩ <;> simp [handleAnalyzeFinish]

/-- C3 (amended): the cost table resolved with a successful run is computed by
calculateTokenImpact from the analyzer result and the OptionState captured when
the run was requested — the click-time store snapshot App.handleAnalyze hands
down, the hook passes to the service, and the service ships to the worker in
the request message — independent of anything that happened to the options
while the job ran. -/
theorem claim3_cost_uses_request_time_options
    (calculateTokenImpact : List SourceFile → FormattingOptions → TokenImpact)
    (sanitizeAnalysisResult : List SourceFile → List SourceFile)
    (analyzeProject : List FileContent → List String → List String →
      List SourceFile × Nat)
    (parsedFiles : List FileContent) (store : AppStoreSnapshot)
    (sMid : AnalysisState) (now : Nat) :
    (runToCompletion calculateTokenImpact sanitizeAnalysisResult analyzeProject
        parsedFiles store sMid now).tokenImpact
      = some (calculateTokenImpact
          (analyzeProject parsedFiles (splitPatterns store.includePattern)
            (splitPatterns store.excludePattern)).1
          store.formattingOptions) := rfl

/-- C3 as stated is false at this input: a run requested with preset
"requested" while the user edits the options to preset "edited" before
completion resolves with the cost table of the requested-time options, not
the cost table of the completion-time options the claim promises. -/
theorem claim3_counterexample_completion_time_options :
    (runToCompletion
        (fun _ o => ⟨some [("showIcons", if o.preset = some "requested" then 1 else 2)],
                     none⟩)
        (fun r => r)
        (fun _ _ _ => ([⟨"a.ts"⟩], 5))
        [⟨"a.ts", "export const x = 1"⟩]
        ⟨"[]", ⟨[], none, some "requested"⟩, "", ""⟩
        ⟨true, true, true, none, none, [], none, none⟩ 9).tokenImpact
      ≠ some ((fun (_ : List SourceFile) (o : FormattingOptions) =>
            (⟨some [("showIcons", if o.preset = some "requested" then 1 else 2)],
              none⟩ : TokenImpact))
          [⟨"a.ts"⟩] ⟨[], none, some "edited"⟩) := by
  decide

end ScnDemo
